import Mathlib

/-!
Shallow embedding of the plang-rust bytecode compiler and virtual machine
(`src/lib/parse.rs`, `src/lib/interp.rs`), with theorems checking the
natural-language specification against the code.

Modelling conventions:
* Rust `Vec` becomes `List`; for operand stacks and the frame stack the list
  HEAD is the newest element (Rust's `last`).
* Rust `i32` payloads become `Int`; where the program does i32 arithmetic
  (`Add`/`Sub` on two `Int`s) the result is wrapped into two's-complement
  range with `wrap32`, the release-build semantics (a debug build aborts on
  overflow instead; under either semantics the mathematical sum is not
  produced on overflow).  `f32` payloads become `Rat`: exact rationals with
  the `Int → Double` coercion made explicit.  Real f32 arithmetic rounds to
  24-bit significands; this embedding does not model that rounding, and no
  theorem below asserts exactness of a `Double`-tagged result.
* `HashMap` becomes an association list (`List (key × value)`) with
  `lookup` / insert-by-replace.
* A Rust `panic!` / failed `unwrap` / out-of-bounds index is a fatal error,
  modelled by `Option` (`none` = the process aborts) or, in the interpreter
  loop, by an explicit `fatal` outcome.
-/

namespace Plang

/-- `NativeType` from interp.rs: the tagged runtime value. -/
inductive NativeType where
  | Int : Int → NativeType
  | Double : Rat → NativeType
  | Bool : Bool → NativeType
  | Str : String → NativeType
  | ObjectRef : Nat → NativeType
  | NoneType : NativeType
  deriving DecidableEq, Repr

/-- `EXCEPTION_PTR` from interp.rs: the distinguished exception heap slot. -/
def EXCEPTION_PTR : Nat := 0

/-- Reduce an integer to i32 two's-complement range: the value Rust's
wrapping i32 addition/subtraction produces.  (A debug build panics on
overflow instead of wrapping; on every non-overflowing input the two agree
with the exact result.) -/
def wrap32 (z : Int) : Int := (z + 2 ^ 31) % 2 ^ 32 - 2 ^ 31

/-- `NativeType::pretty` from interp.rs (string rendering of a value). -/
def NativeType.pretty : NativeType → String
  | .Int x => toString x
  | .Double x => toString x
  | .Bool x => toString x
  | .Str x => x
  | .ObjectRef x => "&" ++ toString x
  | .NoneType => "None"

/-- `Instr` from parse.rs: the opcode enumeration. -/
inductive Instr where
  | PushInt : Int → Instr
  | PushStr : String → Instr
  | Pop : Instr
  | Add : Instr
  | Sub : Instr
  | Lteq : Instr
  | Gteq : Instr
  | Lt : Instr
  | Gt : Instr
  | Eqeq : Instr
  | Raise : Instr
  | LoadVar : Nat → Instr
  | StoreVar : Nat → Instr
  | LoadGlobal : String → Instr
  | StoreGlobal : String → Instr
  | NewObject : Instr
  | LoadField : String → Instr
  | StoreField : String → Instr
  | Swap : Instr
  | Dup : Instr
  | Call : String → String → Instr
  | JumpIfTrue : Nat → Instr
  | JumpIfFalse : Nat → Instr
  | Jump : Nat → Instr
  | Ret : Instr
  | Exit : Instr
  deriving DecidableEq, Repr

/-- `Fn` from parse.rs: the per-function descriptor in the symbol table. -/
structure Fn where
  locals : List String
  num_params : Nat
  deriving DecidableEq, Repr

/-- `Fn::params_len`. -/
def Fn.params_len (f : Fn) : Nat := f.num_params

/-- `Bytecode` from parse.rs: the compiled program image. -/
structure Bytecode where
  bytecode : List Instr
  symbols : List ((String × String) × Fn)
  labels : List ((String × String) × Nat)
  deriving Repr

/-- `Object` from interp.rs: a heap object, mapping field names to values.
`HashMap::insert` is modelled by replace-or-append. -/
structure Object where
  fields : List (String × NativeType)
  deriving DecidableEq, Repr

/-- `Object::new`. -/
def Object.new : Object := ⟨[]⟩

/-- `HashMap::insert` on an object's field map: overwrite the binding when the
key is present, otherwise append it. -/
def Object.insertField (o : Object) (k : String) (v : NativeType) : Object :=
  if (o.fields.lookup k).isSome then
    ⟨o.fields.map fun p => if p.1 = k then (k, v) else p⟩
  else
    ⟨o.fields ++ [(k, v)]⟩

/-- `Frame` from interp.rs: one activation record.  The operand `stack` has
its top at the list head. -/
structure Frame where
  stack : List NativeType
  locals : List NativeType
  return_address : Nat
  raise : Bool
  in_try : Bool
  name : String
  deriving DecidableEq, Repr

namespace Frame

/-- `Frame::new`. -/
def new (name : String) (locals : List NativeType) (return_address : Nat) : Frame :=
  { stack := [], locals := locals, return_address := return_address,
    raise := false, in_try := false, name := name }

/-- `Frame::push`. -/
def push (f : Frame) (obj : NativeType) : Frame :=
  { f with stack := obj :: f.stack }

/-- `Frame::pop`; popping an empty stack panics (`none`). -/
def pop (f : Frame) : Option (NativeType × Frame) :=
  match f.stack with
  | v :: rest => some (v, { f with stack := rest })
  | [] => none

/-- `Frame::peek`. -/
def peek (f : Frame) : Option NativeType := f.stack.head?

/-- `Frame::dup`; `peek().unwrap()` panics on an empty stack (`none`). -/
def dup (f : Frame) : Option Frame :=
  match f.peek with
  | some tos => some (f.push tos)
  | none => none

/-- `Frame::load_local`; `locals[index]` panics when out of range (`none`). -/
def load_local (f : Frame) (index : Nat) : Option Frame :=
  match f.locals[index]? with
  | some v => some (f.push v)
  | none => none

/-- `Frame::store_local`: pop a value, then overwrite slot `index` when
`index < len`, append when `index == len`, and abort (failed `assert_eq`)
otherwise. -/
def store_local (f : Frame) (index : Nat) : Option Frame :=
  match f.pop with
  | some (value, f') =>
    let len := f'.locals.length
    if index < len then
      some { f' with locals := f'.locals.set index value }
    else if index = len then
      some { f' with locals := f'.locals ++ [value] }
    else
      none
  | none => none

/-- `Frame::raise`: push the exception sentinel `ObjectRef(EXCEPTION_PTR)`,
push `Str(msg)`, and set the raise flag. -/
def raiseErr (f : Frame) (msg : String) : Frame :=
  { (f.push (.ObjectRef EXCEPTION_PTR)).push (.Str msg) with raise := true }

/-- `Frame::add`: pop rhs, pop lhs, push the sum with `Int`/`Double`
coercion; raise `TypeError` on any other combination.  `Int`/`Int` is i32
addition (wrapped by `wrap32`); the `Double` arms idealize f32 addition as
exact rational addition (real f32 rounds). -/
def add (f : Frame) : Option Frame :=
  match f.stack with
  | rhs :: lhs :: rest =>
    let f' : Frame := { f with stack := rest }
    some (match lhs, rhs with
      | .Int x, .Int y => f'.push (.Int (wrap32 (x + y)))
      | .Int x, .Double y => f'.push (.Double ((x : Rat) + y))
      | .Double x, .Int y => f'.push (.Double (x + (y : Rat)))
      | .Double x, .Double y => f'.push (.Double (x + y))
      | _, _ => f'.raiseErr "TypeError")
  | _ => none

/-- `Frame::sub`; i32/f32 treatment as in `Frame.add`. -/
def sub (f : Frame) : Option Frame :=
  match f.stack with
  | rhs :: lhs :: rest =>
    let f' : Frame := { f with stack := rest }
    some (match lhs, rhs with
      | .Int x, .Int y => f'.push (.Int (wrap32 (x - y)))
      | .Int x, .Double y => f'.push (.Double ((x : Rat) - y))
      | .Double x, .Int y => f'.push (.Double (x - (y : Rat)))
      | .Double x, .Double y => f'.push (.Double (x - y))
      | _, _ => f'.raiseErr "TypeError")
  | _ => none

/-- `Frame::lteq`. -/
def lteq (f : Frame) : Option Frame :=
  match f.stack with
  | rhs :: lhs :: rest =>
    let f' : Frame := { f with stack := rest }
    some (match lhs, rhs with
      | .Int x, .Int y => f'.push (.Bool (decide (x ≤ y)))
      | .Int x, .Double y => f'.push (.Bool (decide ((x : Rat) ≤ y)))
      | .Double x, .Int y => f'.push (.Bool (decide (x ≤ (y : Rat))))
      | .Double x, .Double y => f'.push (.Bool (decide (x ≤ y)))
      | _, _ => f'.raiseErr "TypeError")
  | _ => none

/-- `Frame::lt`. -/
def lt (f : Frame) : Option Frame :=
  match f.stack with
  | rhs :: lhs :: rest =>
    let f' : Frame := { f with stack := rest }
    some (match lhs, rhs with
      | .Int x, .Int y => f'.push (.Bool (decide (x < y)))
      | .Int x, .Double y => f'.push (.Bool (decide ((x : Rat) < y)))
      | .Double x, .Int y => f'.push (.Bool (decide (x < (y : Rat))))
      | .Double x, .Double y => f'.push (.Bool (decide (x < y)))
      | _, _ => f'.raiseErr "TypeError")
  | _ => none

/-- `Frame::gt`. -/
def gt (f : Frame) : Option Frame :=
  match f.stack with
  | rhs :: lhs :: rest =>
    let f' : Frame := { f with stack := rest }
    some (match lhs, rhs with
      | .Int x, .Int y => f'.push (.Bool (decide (x > y)))
      | .Int x, .Double y => f'.push (.Bool (decide ((x : Rat) > y)))
      | .Double x, .Int y => f'.push (.Bool (decide (x > (y : Rat))))
      | .Double x, .Double y => f'.push (.Bool (decide (x > y)))
      | _, _ => f'.raiseErr "TypeError")
  | _ => none

/-- `Frame::gteq`. -/
def gteq (f : Frame) : Option Frame :=
  match f.stack with
  | rhs :: lhs :: rest =>
    let f' : Frame := { f with stack := rest }
    some (match lhs, rhs with
      | .Int x, .Int y => f'.push (.Bool (decide (x ≥ y)))
      | .Int x, .Double y => f'.push (.Bool (decide ((x : Rat) ≥ y)))
      | .Double x, .Int y => f'.push (.Bool (decide (x ≥ (y : Rat))))
      | .Double x, .Double y => f'.push (.Bool (decide (x ≥ y)))
      | _, _ => f'.raiseErr "TypeError")
  | _ => none

/-- `Frame::eq` (the `Eqeq` opcode's primitive). -/
def eq (f : Frame) : Option Frame :=
  match f.stack with
  | rhs :: lhs :: rest =>
    let f' : Frame := { f with stack := rest }
    some (match lhs, rhs with
      | .Int x, .Int y => f'.push (.Bool (decide (x = y)))
      | .Int x, .Double y => f'.push (.Bool (decide ((x : Rat) = y)))
      | .Double x, .Int y => f'.push (.Bool (decide (x = (y : Rat))))
      | .Double x, .Double y => f'.push (.Bool (decide (x = y)))
      | _, _ => f'.raiseErr "TypeError")
  | _ => none

end Frame

/-- The VM's mutable state between ticks of the interpreter loop.  `frames`
holds the newest (current) frame at the list HEAD (Rust's `last`). -/
structure VMState where
  heap : List Object
  frames : List Frame
  pc : Nat
  deriving Repr

/-- `usize::max_value()`: the sentinel pc the unwinder installs when every
frame has been discarded. -/
def usizeMax : Nat := 2 ^ 64 - 1

/-- Index (from the newest frame) of the first frame whose `in_try` flag is
set, scanning newest → oldest as `frames.iter().rev()` does. -/
def findTryIdx : List Frame → Option Nat
  | [] => none
  | f :: rest => if f.in_try then some 0 else (findTryIdx rest).map (· + 1)

/-- The backtrace accumulated by the unwind loop: names of the frames newer
than the first try frame (all frame names when there is none). -/
def backtraceOf : List Frame → List NativeType
  | [] => []
  | f :: rest => if f.in_try then [] else .Str f.name :: backtraceOf rest

/-- `VM::unwind_stack_on_raise`, as a pure function of the state.  When the
current frame's raise flag is set: scan newest → oldest for a frame inside a
try region; `drain` removes every frame newer than it *and the try frame
itself* (`try_index` points at the try frame); with no try frame the drain
empties the whole stack and `pc` becomes `usize::max_value()` after the
backtrace is printed to stderr.  `none` models the `unwrap` panic when the
frame stack is already empty at the check. -/
def unwind_stack_on_raise (s : VMState) : Option VMState :=
  match s.frames with
  | [] => none
  | top :: _ =>
    if top.raise then
      let frames' :=
        match findTryIdx s.frames with
        | some i => s.frames.drop (i + 1)
        | none => []
      match frames'.head? with
      | some x => some { s with frames := frames', pc := x.return_address }
      | none => some { s with frames := frames', pc := usizeMax }
    else
      some s

/-- Result of one tick of `VM::run`'s loop. -/
inductive Outcome where
  | next : VMState → Outcome
  | halt : Option NativeType → Outcome
  | fatal : Outcome
  deriving Repr

/-- Run `f` on the current frame (`frames.last_mut().unwrap()`); fatal when
the frame stack is empty or `f` itself panics. -/
def withTopFrame (s : VMState) (pc' : Nat) (f : Frame → Option Frame) : Outcome :=
  match s.frames with
  | top :: rest =>
    match f top with
    | some top' => .next { s with frames := top' :: rest, pc := pc' }
    | none => .fatal
  | [] => .fatal

/-- Pop `n` values off a frame, newest first, as the `Call` arm's loop does.
Returns the popped values in pop order plus the shrunken frame; `none` is
the stack-underflow panic. -/
def popN : Nat → Frame → Option (List NativeType × Frame)
  | 0, f => some ([], f)
  | n + 1, f =>
    match f.pop with
    | some (v, f') => (popN n f').map fun (vs, f'') => (v :: vs, f'')
    | none => none

/-- One dispatch of `VM::run`'s `match` on the instruction at `pc`,
followed by the post-step `unwind_stack_on_raise` check (the `Exit` arm and
the falling-off-the-end check `break` before that check runs). -/
def step (bc : Bytecode) (s : VMState) : Outcome :=
  if s.pc ≥ bc.bytecode.length then
    .halt ((s.frames.head?).bind Frame.peek)
  else
    let afterDispatch : Outcome :=
      match bc.bytecode[s.pc]? with
      | none => .fatal
      | some instr =>
        match instr with
        | .PushInt x => withTopFrame s (s.pc + 1) fun f => some (f.push (.Int x))
        | .PushStr x => withTopFrame s (s.pc + 1) fun f => some (f.push (.Str x))
        | .Pop => withTopFrame s (s.pc + 1) fun f => (f.pop).map (·.2)
        | .Dup => withTopFrame s (s.pc + 1) Frame.dup
        | .Add => withTopFrame s (s.pc + 1) Frame.add
        | .Sub => withTopFrame s (s.pc + 1) Frame.sub
        | .Lteq => withTopFrame s (s.pc + 1) Frame.lteq
        | .Gteq => withTopFrame s (s.pc + 1) Frame.gteq
        | .Lt => withTopFrame s (s.pc + 1) Frame.lt
        | .Gt => withTopFrame s (s.pc + 1) Frame.gt
        | .Eqeq => withTopFrame s (s.pc + 1) Frame.eq
        | .LoadVar index => withTopFrame s (s.pc + 1) fun f => f.load_local index
        | .StoreVar index => withTopFrame s (s.pc + 1) fun f => f.store_local index
        | .Raise => withTopFrame s s.pc fun f => some (f.raiseErr "Exception")
        | .LoadGlobal _ => .fatal
        | .StoreGlobal _ => .fatal
        | .NewObject =>
          let heap' := s.heap ++ [Object.new]
          let objRef := heap'.length - 1
          match s.frames with
          | top :: rest =>
            .next { s with heap := heap',
                           frames := top.push (.ObjectRef objRef) :: rest,
                           pc := s.pc + 1 }
          | [] => .fatal
        | .LoadField field_name =>
          match s.frames with
          | top :: rest =>
            (match top.pop with
             | some (.ObjectRef x, top') =>
               match s.heap[x]? with
               | some obj =>
                 match obj.fields.lookup field_name with
                 | some field =>
                   .next { s with frames := top'.push field :: rest, pc := s.pc + 1 }
                 | none => .fatal
               | none => .fatal
             | some _ => .fatal
             | none => .fatal)
          | [] => .fatal
        | .StoreField field_name =>
          match s.frames with
          | top :: rest =>
            (match top.pop with
             | some (objRef, top') =>
               match top'.pop with
               | some (value, top'') =>
                 (match objRef with
                  | .ObjectRef x =>
                    match s.heap[x]? with
                    | some obj =>
                      .next { s with heap := s.heap.set x (obj.insertField field_name value),
                                     frames := top'' :: rest, pc := s.pc + 1 }
                    | none => .fatal
                  | _ => .fatal)
               | none => .fatal
             | none => .fatal)
          | [] => .fatal
        | .JumpIfTrue pos =>
          match s.frames with
          | top :: rest =>
            (match top.pop with
             | some (v, top') =>
               if v = .Bool true then
                 .next { s with frames := top' :: rest, pc := pos }
               else
                 .next { s with frames := top' :: rest, pc := s.pc + 1 }
             | none => .fatal)
          | [] => .fatal
        | .JumpIfFalse pos =>
          match s.frames with
          | top :: rest =>
            (match top.pop with
             | some (v, top') =>
               if v = .Bool false then
                 .next { s with frames := top' :: rest, pc := pos }
               else
                 .next { s with frames := top' :: rest, pc := s.pc + 1 }
             | none => .fatal)
          | [] => .fatal
        | .Jump pos => .next { s with pc := pos }
        | .Call class_name fn_name =>
          let key := (class_name, fn_name)
          match bc.symbols.lookup key with
          | some fn_metadata =>
            (match s.frames with
             | top :: rest =>
               match popN fn_metadata.params_len top with
               | some (popped, top') =>
                 let locals := popped.reverse
                 let new_frame := Frame.new fn_name locals (s.pc + 1)
                 (match bc.labels.lookup key with
                  | some entry =>
                    .next { s with frames := new_frame :: top' :: rest, pc := entry }
                  | none => .fatal)
               | none => .fatal
             | [] => .fatal)
          | none => .fatal
        | .Ret =>
          match s.frames with
          | top :: rest =>
            let return_value := top.stack.headD .NoneType
            (match rest with
             | caller :: rest' =>
               .next { s with frames := caller.push return_value :: rest',
                              pc := top.return_address }
             | [] => .fatal)
          | [] => .fatal
        | .Exit =>
          match s.frames with
          | top :: _ => .halt top.peek
          | [] => .fatal
        | .Swap => .fatal
    match afterDispatch with
    | .next s' =>
      (match unwind_stack_on_raise s' with
       | some s'' => .next s''
       | none => .fatal)
    | o => o

/-- Result of running the interpreter loop to completion. -/
inductive RunResult where
  | halted : Option NativeType → RunResult
  | fatal : RunResult
  | timeout : RunResult
  deriving DecidableEq, Repr

/-- The interpreter loop of `VM::run`, with explicit fuel. -/
def runLoop (bc : Bytecode) : Nat → VMState → RunResult
  | 0, _ => .timeout
  | n + 1, s =>
    match step bc s with
    | .next s' => runLoop bc n s'
    | .halt r => .halted r
    | .fatal => .fatal

/-- `VM::enter_main`: locate `labels[(global, main)]` and push the root frame
whose return address is the end of the bytecode.  `none` is the
"Main method not found" panic. -/
def enter_main (bc : Bytecode) : Option VMState :=
  match bc.labels.lookup ("global", "main") with
  | some entry =>
    some { heap := [],
           frames := [Frame.new "main" [] bc.bytecode.length],
           pc := entry }
  | none => none

/-- Top-level `run` from interp.rs: run the VM and pretty-print the result,
rendering the absence of a result as the empty string.  `none` covers the
fatal-panic and fuel-exhaustion outcomes. -/
def run (bc : Bytecode) (fuel : Nat) : Option String :=
  match enter_main bc with
  | some s0 =>
    match runLoop bc fuel s0 with
    | .halted (some x) => some x.pretty
    | .halted none => some ""
    | _ => none
  | none => none

/-! ## Compiler (parse.rs) -/

/-- `PLACEHOLDER` from parse.rs: the sentinel jump target emitted for forward
jumps before `patch` rewrites it. -/
def PLACEHOLDER : Nat := usizeMax

/-- `HashMap::insert`: overwrite the binding when the key is present,
otherwise append it. -/
def assocInsert {α β : Type} [DecidableEq α] (l : List (α × β)) (k : α) (v : β) :
    List (α × β) :=
  if (l.lookup k).isSome then
    l.map fun p => if p.1 = k then (k, v) else p
  else
    l ++ [(k, v)]

/-- A parse-tree node (`lrpar::parser::Node`): a terminal carries its token
name and lexeme text; a non-terminal carries its grammar-rule name and its
children.  (`get_name`/`get_value` of the Rust code are folded into the
constructors, replacing the grammar/source-text indirection.) -/
inductive Node where
  | Term : String → String → Node
  | Nonterm : String → List Node → Node

/-- `CompilerContext::get_name`. -/
def Node.get_name : Node → String
  | .Term name _ => name
  | .Nonterm name _ => name

/-- `CompilerContext::get_value`; panics (`none`) on a non-terminal. -/
def Node.get_value : Node → Option String
  | .Term _ value => some value
  | .Nonterm _ _ => none

/-- `CompilerContext` from parse.rs (minus the grammar/source references,
which `Node` has absorbed). -/
structure CompilerContext where
  symbols : List ((String × String) × Fn)
  bytecode : List Instr
  labels : List ((String × String) × Nat)
  cur_cls : String
  cur_fn : String
  deriving Repr

namespace CompilerContext

/-- `CompilerContext::new`. -/
def new : CompilerContext :=
  { symbols := [], bytecode := [], labels := [],
    cur_cls := "global", cur_fn := "global" }

/-- `CompilerContext::patch`: rewrite the jump target at `bytecode[pos]` to
the current bytecode length.  Only the `JumpIfTrue`/`JumpIfFalse` arms are
matched; anything else (a plain `Jump` included) hits the
"Unknown jump instruction" panic (`none`). -/
def patch (ctx : CompilerContext) (pos : Nat) : Option CompilerContext :=
  let patch_value := ctx.bytecode.length
  match ctx.bytecode[pos]? with
  | some (.JumpIfTrue _) =>
    some { ctx with bytecode := ctx.bytecode.set pos (.JumpIfTrue patch_value) }
  | some (.JumpIfFalse _) =>
    some { ctx with bytecode := ctx.bytecode.set pos (.JumpIfFalse patch_value) }
  | _ => none

/-- `CompilerContext::gen_bc`: append an instruction, returning the new
context and the appended instruction's index. -/
def gen_bc (ctx : CompilerContext) (instr : Instr) : CompilerContext × Nat :=
  ({ ctx with bytecode := ctx.bytecode ++ [instr] }, ctx.bytecode.length)

/-- `CompilerContext::get_var_offset`: position of a variable's name in the
current function's locals; any failed lookup panics (`none`). -/
def get_var_offset (ctx : CompilerContext) (var : Node) : Option Nat := do
  let var_name ← var.get_value
  let fn ← ctx.symbols.lookup (ctx.cur_cls, ctx.cur_fn)
  fn.locals.findIdx? (· = var_name)

/-- `CompilerContext::register_local`: reuse the slot when the name already
exists, otherwise append it to the current function's locals. -/
def register_local (ctx : CompilerContext) (var : Node) : Option (CompilerContext × Nat) := do
  let var_name ← var.get_value
  let key := (ctx.cur_cls, ctx.cur_fn)
  let fn ← ctx.symbols.lookup key
  match fn.locals.findIdx? (· = var_name) with
  | some x => some (ctx, x)
  | none =>
    let fn' : Fn := { fn with locals := fn.locals ++ [var_name] }
    some ({ ctx with symbols := assocInsert ctx.symbols key fn' },
          fn'.locals.length - 1)

end CompilerContext

/-- `CONSTRUCTOR` from parse.rs. -/
def CONSTRUCTOR : String := "construct"

mutual

/-- `gen_exp` from parse.rs: emit code for one expression node, dispatching
on the grammar-rule name of its first child.  Fuel replaces Rust's native
recursion; every panic is `none`.  A node that fails the `if let Nonterm`
guards emits nothing and succeeds, as in the source. -/
def gen_exp : Nat → Node → CompilerContext → Option CompilerContext
  | 0, _, _ => none
  | fuel + 1, node, ctx =>
    match node with
    | .Term _ _ => some ctx
    | .Nonterm _ nodes =>
      match nodes[0]? with
      | none => none
      | some exp_type =>
        match exp_type with
        | .Term _ _ => some ctx
        | .Nonterm _ inner =>
          match exp_type.get_name with
          | "variable" => do
            let v ← inner[0]?
            let var_offset ← ctx.get_var_offset v
            some (ctx.gen_bc (.LoadVar var_offset)).1
          | "binary_expression" => do
            let lhs ← inner[0]?
            let rhs ← inner[2]?
            let bin_op ← inner[1]?
            let ctx1 ← gen_exp fuel lhs ctx
            let ctx2 ← gen_exp fuel rhs ctx1
            match bin_op with
            | .Nonterm _ opNodes => do
              let operator ← opNodes[0]?
              match operator.get_name with
              | "PLUS" => some (ctx2.gen_bc .Add).1
              | "MINUS" => some (ctx2.gen_bc .Sub).1
              | "LTEQ" => some (ctx2.gen_bc .Lteq).1
              | "GTEQ" => some (ctx2.gen_bc .Gteq).1
              | "LT" => some (ctx2.gen_bc .Lt).1
              | "GT" => some (ctx2.gen_bc .Gt).1
              | "EQEQ" => some (ctx2.gen_bc .Eqeq).1
              | _ => none
            | .Term _ _ => some ctx2
          | "method_invocation" => do
            let argsN ← inner[4]?
            let recv ← inner[0]?
            let meth ← inner[2]?
            let ctx1 ← gen_args fuel argsN ctx
            let obj_name ← recv.get_value
            let method_name ← meth.get_value
            some (ctx1.gen_bc (.Call obj_name method_name)).1
          | "method_invocation_same_class" => do
            let argsN ← inner[2]?
            let meth ← inner[0]?
            let ctx1 ← gen_args fuel argsN ctx
            let method_name ← meth.get_value
            some (ctx1.gen_bc (.Call ctx1.cur_cls method_name)).1
          | "field_access" => do
            let recv ← inner[0]?
            let fieldN ← inner[2]?
            let obj_alias ← ctx.get_var_offset recv
            let field_name ← fieldN.get_value
            let ctx1 := (ctx.gen_bc (.LoadVar obj_alias)).1
            some (ctx1.gen_bc (.LoadField field_name)).1
          | "field_set" => do
            let valueN ← inner[4]?
            let recv ← inner[0]?
            let fieldN ← inner[2]?
            let ctx1 ← gen_exp fuel valueN ctx
            let obj_alias ← ctx1.get_var_offset recv
            let field_name ← fieldN.get_value
            let ctx2 := (ctx1.gen_bc (.LoadVar obj_alias)).1
            some (ctx2.gen_bc (.StoreField field_name)).1
          | "class_instance_creation" => do
            let clsN ← inner[1]?
            let argsN ← inner[3]?
            let cls_name ← clsN.get_value
            let ctx1 := (ctx.gen_bc .NewObject).1
            let ctx2 := (ctx1.gen_bc .Dup).1
            let ctx3 ← gen_args fuel argsN ctx2
            let ctx4 := (ctx3.gen_bc (.Call cls_name CONSTRUCTOR)).1
            some (ctx4.gen_bc .Pop).1
          | "literal" => do
            let litN ← inner[0]?
            let lit_value ← litN.get_value
            match litN.get_name with
            | "INT_LITERAL" => do
              let int ← lit_value.toInt?
              some (ctx.gen_bc (.PushInt int)).1
            | "STR_LITERAL" => some (ctx.gen_bc (.PushStr lit_value)).1
            | _ => none
          | _ => none

/-- `gen_args` from parse.rs: iterate the children of an argument-list node,
emitting nested lists and expressions in order. -/
def gen_args : Nat → Node → CompilerContext → Option CompilerContext
  | 0, _, _ => none
  | fuel + 1, node, ctx =>
    match node with
    | .Term _ _ => some ctx
    | .Nonterm _ nodes => gen_args_list fuel nodes ctx

/-- The body of `gen_args`'s `for child in nodes` loop. -/
def gen_args_list : Nat → List Node → CompilerContext → Option CompilerContext
  | _, [], ctx => some ctx
  | 0, _ :: _, _ => none
  | fuel + 1, child :: rest, ctx =>
    match child.get_name with
    | "arg_list" => do
      let ctx1 ← gen_args fuel child ctx
      gen_args_list fuel rest ctx1
    | "expression" => do
      let ctx1 ← gen_exp fuel child ctx
      gen_args_list fuel rest ctx1
    | "COMMA" => gen_args_list fuel rest ctx
    | _ => none

end

/-! ## The spec's end-to-end scenario 7 -/

/-- The program image the compiler emits (per §4.3 of the spec and the
tree-walk in parse.rs) for
`class global(){ def main(){ 1 + foo() } def foo(){ raise } }`:
`main` at offset 0 pushes `1`, calls `(global, foo)`, adds, exits; `foo` at
offset 4 raises and returns. -/
def program7 : Bytecode :=
  { bytecode := [.PushInt 1, .Call "global" "foo", .Add, .Exit, .Raise, .Ret],
    symbols := [(("global", "main"), ⟨[], 0⟩), (("global", "foo"), ⟨[], 0⟩)],
    labels := [(("global", "main"), 0), (("global", "foo"), 4)] }

/-! ## Helper predicates -/

/-- Numeric reading of a runtime value under the `Int → Double` coercion the
arithmetic opcodes apply; `none` for non-numeric values. -/
def numVal : NativeType → Option Rat
  | .Int x => some (x : Rat)
  | .Double x => some x
  | _ => none

/-- Tag test: is the value an `Int`? -/
def isIntVal (v : NativeType) : Bool :=
  match v with
  | .Int _ => true
  | _ => false

/-- Tag test: is the value a `Double`? -/
def isDoubleVal (v : NativeType) : Bool :=
  match v with
  | .Double _ => true
  | _ => false

/-! ## Theorems -/

/-- C3 counterexample: the claim's "the numeric value is the exact sum"
fails at `Int 2147483647 + Int 1`: i32 addition wraps (release build; a
debug build aborts there), so the program produces `Int (-2147483648)`,
not the exact sum `2147483648`. -/
theorem add_exact_value_counterexample :
    (Frame.mk [.Int 1, .Int 2147483647] [] 0 false false "main").add =
      some { Frame.mk [.Int 1, .Int 2147483647] [] 0 false false "main" with
             stack := [.Int (-2147483648)] } ∧
    (-2147483648 : Int) ≠ 2147483647 + 1 := by
  constructor
  · simp [Frame.add, Frame.push, wrap32]
  · decide

/-- C3 (amended): on numeric operands (`Int`/`Double` in any combination)
`Add` and `Sub` push a single result over the remaining stack whose tag is
`Int` exactly when both operands are `Int` and `Double` exactly when at
least one operand is `Double`; an `Int`/`Int` result carries the sum or
difference wrapped into i32 two's-complement range (`wrap32`) — the machine
value, which coincides with the exact value only absent overflow.  No
exactness is asserted for `Double`-tagged results, which the program
computes in rounding f32 arithmetic. -/
theorem add_sub_numeric (f : Frame) (a b : NativeType) (rest : List NativeType)
    (hstack : f.stack = b :: a :: rest)
    (ha : (numVal a).isSome) (hb : (numVal b).isSome) :
    ∃ rAdd rSub : NativeType,
      f.add = some { f with stack := rAdd :: rest } ∧
      f.sub = some { f with stack := rSub :: rest } ∧
      isIntVal rAdd = (isIntVal a && isIntVal b) ∧
      isIntVal rSub = (isIntVal a && isIntVal b) ∧
      (isDoubleVal rAdd = (isDoubleVal a || isDoubleVal b)) ∧
      (isDoubleVal rSub = (isDoubleVal a || isDoubleVal b)) ∧
      (∀ x y : Int, a = NativeType.Int x → b = NativeType.Int y →
        rAdd = NativeType.Int (wrap32 (x + y)) ∧
        rSub = NativeType.Int (wrap32 (x - y))) := by
  cases a <;> cases b <;>
    simp_all [numVal, Frame.add, Frame.sub, Frame.push, isIntVal, isDoubleVal]

/-- C3 witness: `Add`/`Sub` on `Int 3` (lhs) and `Int 4` (rhs) produce
`Int`-tagged wrapped results, and on `Int 3`/`Double 1/2` a `Double`. -/
theorem add_sub_numeric_witness :
    (∃ rAdd rSub : NativeType,
      (Frame.mk [.Int 4, .Int 3] [] 0 false false "main").add =
        some { Frame.mk [.Int 4, .Int 3] [] 0 false false "main" with
               stack := [rAdd] } ∧
      (Frame.mk [.Int 4, .Int 3] [] 0 false false "main").sub =
        some { Frame.mk [.Int 4, .Int 3] [] 0 false false "main" with
               stack := [rSub] } ∧
      isIntVal rAdd = (isIntVal (NativeType.Int 3) && isIntVal (NativeType.Int 4)) ∧
      isIntVal rSub = (isIntVal (NativeType.Int 3) && isIntVal (NativeType.Int 4)) ∧
      (isDoubleVal rAdd = (isDoubleVal (NativeType.Int 3) || isDoubleVal (NativeType.Int 4))) ∧
      (isDoubleVal rSub = (isDoubleVal (NativeType.Int 3) || isDoubleVal (NativeType.Int 4))) ∧
      (∀ x y : Int, NativeType.Int 3 = NativeType.Int x → NativeType.Int 4 = NativeType.Int y →
        rAdd = NativeType.Int (wrap32 (x + y)) ∧
        rSub = NativeType.Int (wrap32 (x - y)))) ∧
    (∃ rAdd rSub : NativeType,
      (Frame.mk [.Double (1/2), .Int 3] [] 0 false false "main").add =
        some { Frame.mk [.Double (1/2), .Int 3] [] 0 false false "main" with
               stack := [rAdd] } ∧
      (Frame.mk [.Double (1/2), .Int 3] [] 0 false false "main").sub =
        some { Frame.mk [.Double (1/2), .Int 3] [] 0 false false "main" with
               stack := [rSub] } ∧
      isIntVal rAdd = (isIntVal (NativeType.Int 3) && isIntVal (NativeType.Double (1/2))) ∧
      isIntVal rSub = (isIntVal (NativeType.Int 3) && isIntVal (NativeType.Double (1/2))) ∧
      (isDoubleVal rAdd = (isDoubleVal (NativeType.Int 3) || isDoubleVal (NativeType.Double (1/2)))) ∧
      (isDoubleVal rSub = (isDoubleVal (NativeType.Int 3) || isDoubleVal (NativeType.Double (1/2)))) ∧
      (∀ x y : Int, NativeType.Int 3 = NativeType.Int x → NativeType.Double (1/2) = NativeType.Int y →
        rAdd = NativeType.Int (wrap32 (x + y)) ∧
        rSub = NativeType.Int (wrap32 (x - y)))) :=
  ⟨add_sub_numeric (Frame.mk [.Int 4, .Int 3] [] 0 false false "main")
     (.Int 3) (.Int 4) [] rfl rfl rfl,
   add_sub_numeric (Frame.mk [.Double (1/2), .Int 3] [] 0 false false "main")
     (.Int 3) (.Double (1/2)) [] rfl rfl rfl⟩

/-- C4: every arithmetic/comparison opcode primitive, on an operand pair
that is not one of the four `Int`/`Double` combinations, leaves the frame
with the raise flag set and exactly the two sentinels `ObjectRef
EXCEPTION_PTR` then `Str "TypeError"` pushed over the remaining stack; the
`Raise` opcode does the same on the current frame with kind `"Exception"`
(followed by the ordinary post-dispatch unwind check). -/
theorem type_mismatch_and_raise_sentinels :
    (∀ (f : Frame) (a b : NativeType) (rest : List NativeType),
       f.stack = b :: a :: rest →
       ¬((numVal a).isSome ∧ (numVal b).isSome) →
       f.add = some { f with stack := .Str "TypeError" :: .ObjectRef EXCEPTION_PTR :: rest,
                             raise := true } ∧
       f.sub = some { f with stack := .Str "TypeError" :: .ObjectRef EXCEPTION_PTR :: rest,
                             raise := true } ∧
       f.lt = some { f with stack := .Str "TypeError" :: .ObjectRef EXCEPTION_PTR :: rest,
                            raise := true } ∧
       f.lteq = some { f with stack := .Str "TypeError" :: .ObjectRef EXCEPTION_PTR :: rest,
                              raise := true } ∧
       f.gt = some { f with stack := .Str "TypeError" :: .ObjectRef EXCEPTION_PTR :: rest,
                            raise := true } ∧
       f.gteq = some { f with stack := .Str "TypeError" :: .ObjectRef EXCEPTION_PTR :: rest,
                              raise := true } ∧
       f.eq = some { f with stack := .Str "TypeError" :: .ObjectRef EXCEPTION_PTR :: rest,
                            raise := true }) ∧
    (∀ f : Frame,
       f.raiseErr "Exception" =
         { f with stack := .Str "Exception" :: .ObjectRef EXCEPTION_PTR :: f.stack,
                  raise := true }) ∧
    (∀ (bc : Bytecode) (s : VMState) (top : Frame) (rest : List Frame),
       bc.bytecode[s.pc]? = some .Raise → s.frames = top :: rest →
       step bc s =
         match unwind_stack_on_raise { s with frames := top.raiseErr "Exception" :: rest } with
         | some s' => .next s'
         | none => .fatal) := by
  refine ⟨?_, ?_, ?_⟩
  · intro f a b rest hstack hmm
    cases a <;> cases b <;>
      simp_all [numVal, Frame.add, Frame.sub, Frame.lt, Frame.lteq, Frame.gt,
        Frame.gteq, Frame.eq, Frame.raiseErr, Frame.push]
  · intro f
    simp [Frame.raiseErr, Frame.push]
  · intro bc s top rest hinstr hframes
    have hlt : s.pc < bc.bytecode.length := by
      rcases List.getElem?_eq_some.mp hinstr with ⟨h, _⟩
      exact h
    unfold step
    rw [if_neg (by omega)]
    rw [hinstr]
    simp only [withTopFrame, hframes]

/-- C4 witness: `Add` on `Str`/`Int` operands raises `TypeError`, and
a `Raise` instruction at pc 0 unwinds the lone root frame to termination. -/
theorem type_mismatch_and_raise_sentinels_witness :
    ((Frame.mk [.Int 1, .Str "x"] [] 0 false false "main").add =
       some { Frame.mk [.Int 1, .Str "x"] [] 0 false false "main" with
              stack := [.Str "TypeError", .ObjectRef EXCEPTION_PTR],
              raise := true }) ∧
    (step (Bytecode.mk [.Raise] [] []) (VMState.mk [] [Frame.mk [] [] 1 false false "main"] 0) =
       match unwind_stack_on_raise
         (VMState.mk [] [(Frame.mk [] [] 1 false false "main").raiseErr "Exception"] 0) with
       | some s' => Outcome.next s'
       | none => Outcome.fatal) :=
  ⟨((type_mismatch_and_raise_sentinels.1 (Frame.mk [.Int 1, .Str "x"] [] 0 false false "main")
      (.Str "x") (.Int 1) [] rfl (by simp [numVal])).1),
   type_mismatch_and_raise_sentinels.2.2 (Bytecode.mk [.Raise] [] [])
     (VMState.mk [] [Frame.mk [] [] 1 false false "main"] 0)
     (Frame.mk [] [] 1 false false "main") [] rfl rfl⟩

/-- C5: `StoreVar(i)`'s primitive pops a value and overwrites slot `i` when
`i < len(locals)`, appends it when `i = len(locals)`, aborts for every
`i > len(locals)`, and never aborts under the precondition `i ≤ len`. -/
theorem store_local_spec (f : Frame) (v : NativeType) (rest : List NativeType) (i : Nat)
    (hstack : f.stack = v :: rest) :
    (i < f.locals.length →
       f.store_local i = some { f with stack := rest, locals := f.locals.set i v }) ∧
    (i = f.locals.length →
       f.store_local i = some { f with stack := rest, locals := f.locals ++ [v] }) ∧
    (f.locals.length < i → f.store_local i = none) ∧
    (i ≤ f.locals.length → (f.store_local i).isSome) := by
  refine ⟨?_, ?_, ?_, ?_⟩ <;> intro h
  · simp [Frame.store_local, Frame.pop, hstack, h]
  · subst h
    simp [Frame.store_local, Frame.pop, hstack]
  · simp only [Frame.store_local, Frame.pop, hstack]
    rw [if_neg (by omega), if_neg (by omega)]
  · rcases Nat.lt_or_ge i f.locals.length with hlt | hge
    · simp [Frame.store_local, Frame.pop, hstack, hlt]
    · have : i = f.locals.length := by omega
      subst this
      simp [Frame.store_local, Frame.pop, hstack]

/-- C5 witness: on a frame with one local, index 0 overwrites, index 1
appends, index 2 aborts, and indices `≤ len` succeed. -/
theorem store_local_spec_witness :
    ((Frame.mk [.Int 7] [.Int 1] 0 false false "main").store_local 0 =
       some { Frame.mk [.Int 7] [.Int 1] 0 false false "main" with
              stack := [], locals := [NativeType.Int 1].set 0 (.Int 7) }) ∧
    ((Frame.mk [.Int 7] [.Int 1] 0 false false "main").store_local 1 =
       some { Frame.mk [.Int 7] [.Int 1] 0 false false "main" with
              stack := [], locals := [NativeType.Int 1] ++ [.Int 7] }) ∧
    ((Frame.mk [.Int 7] [.Int 1] 0 false false "main").store_local 2 = none) ∧
    (((Frame.mk [.Int 7] [.Int 1] 0 false false "main").store_local 1).isSome) :=
  ⟨(store_local_spec (Frame.mk [.Int 7] [.Int 1] 0 false false "main") (.Int 7) [] 0 rfl).1
      (by decide),
   (store_local_spec (Frame.mk [.Int 7] [.Int 1] 0 false false "main") (.Int 7) [] 1 rfl).2.1
      (by decide),
   (store_local_spec (Frame.mk [.Int 7] [.Int 1] 0 false false "main") (.Int 7) [] 2 rfl).2.2.1
      (by decide),
   (store_local_spec (Frame.mk [.Int 7] [.Int 1] 0 false false "main") (.Int 7) [] 1 rfl).2.2.2
      (by decide)⟩

/-- C10: `Eqeq` on two `Str`s, two `Bool`s, two `ObjectRef`s or two
`NoneType`s pushes no equality result: it raises `TypeError` exactly as a
cross-type mismatch does; and whenever `Eqeq` completes without raising,
both operands were numeric (`Int`/`Double`). -/
theorem eqeq_same_type_raises :
    (∀ (f : Frame) (a b : NativeType) (rest : List NativeType),
       f.stack = b :: a :: rest →
       ((∃ x y : String, a = .Str x ∧ b = .Str y) ∨
        (∃ x y : Bool, a = NativeType.Bool x ∧ b = NativeType.Bool y) ∨
        (∃ x y : Nat, a = .ObjectRef x ∧ b = .ObjectRef y) ∨
        (a = .NoneType ∧ b = .NoneType)) →
       f.eq = some { f with stack := .Str "TypeError" :: .ObjectRef EXCEPTION_PTR :: rest,
                            raise := true }) ∧
    (∀ (f f' : Frame) (a b : NativeType) (rest : List NativeType),
       f.stack = b :: a :: rest → f.eq = some f' → f'.raise = false →
       (numVal a).isSome ∧ (numVal b).isSome) := by
  constructor
  · intro f a b rest hstack hsame
    rcases hsame with ⟨x, y, hx, hy⟩ | ⟨x, y, hx, hy⟩ | ⟨x, y, hx, hy⟩ | ⟨hx, hy⟩ <;>
      subst hx <;> subst hy <;>
      simp [Frame.eq, hstack, Frame.raiseErr, Frame.push]
  · intro f f' a b rest hstack heq hraise
    cases a <;> cases b <;>
      simp_all [numVal, Frame.eq, Frame.raiseErr, Frame.push] <;>
      · rw [← heq] at hraise
        simp at hraise

/-- C10 witness: `Eqeq` on two strings raises `TypeError`, and an `Eqeq`
that completed without raising had numeric operands. -/
theorem eqeq_same_type_raises_witness :
    ((Frame.mk [.Str "b", .Str "a"] [] 0 false false "main").eq =
       some { Frame.mk [.Str "b", .Str "a"] [] 0 false false "main" with
              stack := [.Str "TypeError", .ObjectRef EXCEPTION_PTR],
              raise := true }) ∧
    ((numVal (.Int 1)).isSome ∧ (numVal (.Int 2)).isSome) :=
  ⟨eqeq_same_type_raises.1 (Frame.mk [.Str "b", .Str "a"] [] 0 false false "main")
     (.Str "a") (.Str "b") [] rfl (Or.inl ⟨"a", "b", rfl, rfl⟩),
   eqeq_same_type_raises.2 (Frame.mk [.Int 2, .Int 1] [] 0 false false "main")
     { Frame.mk [.Int 2, .Int 1] [] 0 false false "main" with stack := [.Bool false] }
     (.Int 1) (.Int 2) [] rfl (by simp [Frame.eq, Frame.push]) rfl⟩

/-- C6 counterexample: position 0 holds the jump opcode `Jump 0`, yet
`patch 0` is fatal — `patch` does not accept every jump opcode. -/
theorem patch_plain_jump_fatal :
    CompilerContext.patch
      { symbols := [], bytecode := [.Jump 0], labels := [],
        cur_cls := "global", cur_fn := "global" } 0 = none := rfl

/-- C6 (amended): `patch(pos)` rewrites the target at `instructions[pos]` to
the instruction vector's current length when that position holds a
*conditional* jump (`JumpIfTrue`/`JumpIfFalse`), and is fatal exactly when
it holds anything else — an unconditional `Jump` included. -/
theorem patch_spec (ctx : CompilerContext) (pos : Nat) :
    (∀ t, ctx.bytecode[pos]? = some (.JumpIfTrue t) →
       ctx.patch pos =
         some { ctx with bytecode := ctx.bytecode.set pos (.JumpIfTrue ctx.bytecode.length) }) ∧
    (∀ t, ctx.bytecode[pos]? = some (.JumpIfFalse t) →
       ctx.patch pos =
         some { ctx with bytecode := ctx.bytecode.set pos (.JumpIfFalse ctx.bytecode.length) }) ∧
    (ctx.patch pos = none ↔
       ∀ t, ctx.bytecode[pos]? ≠ some (.JumpIfTrue t) ∧
            ctx.bytecode[pos]? ≠ some (.JumpIfFalse t)) := by
  refine ⟨?_, ?_, ?_⟩
  · intro t ht
    simp [CompilerContext.patch, ht]
  · intro t ht
    simp [CompilerContext.patch, ht]
  · unfold CompilerContext.patch
    rcases hbc : ctx.bytecode[pos]? with _ | instr
    · simp [hbc]
    · cases instr <;> simp [hbc]

/-- C6 witness: on the vector `[JumpIfFalse PLACEHOLDER]`, `patch 0`
rewrites the target to the vector length, and `patch` of a `PushInt`
position is fatal. -/
theorem patch_spec_witness :
    (CompilerContext.patch
       { symbols := [], bytecode := [.JumpIfFalse PLACEHOLDER], labels := [],
         cur_cls := "global", cur_fn := "global" } 0 =
       some { symbols := [], bytecode := [Instr.JumpIfFalse PLACEHOLDER].set 0
                (.JumpIfFalse [Instr.JumpIfFalse PLACEHOLDER].length),
              labels := [], cur_cls := "global", cur_fn := "global" }) ∧
    (CompilerContext.patch
       { symbols := [], bytecode := [.PushInt 1], labels := [],
         cur_cls := "global", cur_fn := "global" } 0 = none) :=
  ⟨(patch_spec
      { symbols := [], bytecode := [.JumpIfFalse PLACEHOLDER], labels := [],
        cur_cls := "global", cur_fn := "global" } 0).2.1 PLACEHOLDER rfl,
   (patch_spec
      { symbols := [], bytecode := [.PushInt 1], labels := [],
        cur_cls := "global", cur_fn := "global" } 0).2.2.mpr
     (fun t => by constructor <;> simp)⟩

/-! ## Step-level lemmas shared by the `Call`/`Ret` claims -/

theorem popN_eq (n : Nat) : ∀ f : Frame, n ≤ f.stack.length →
    popN n f = some (f.stack.take n, { f with stack := f.stack.drop n }) := by
  induction n with
  | zero =>
    intro f _
    simp [popN]
  | succ n ih =>
    intro f h
    rcases hs : f.stack with _ | ⟨v, rest⟩
    · rw [hs] at h
      simp at h
    · have hpop : f.pop = some (v, { f with stack := rest }) := by
        simp [Frame.pop, hs]
      have hrest : n ≤ rest.length := by
        rw [hs] at h
        simpa using Nat.le_of_succ_le_succ h
      have hih := ih { f with stack := rest } (by simpa using hrest)
      simp [popN, hpop, hih, hs]

theorem unwind_no_raise (s : VMState) (top : Frame) (rest : List Frame)
    (hframes : s.frames = top :: rest) (h : top.raise = false) :
    unwind_stack_on_raise s = some s := by
  simp [unwind_stack_on_raise, hframes, h]

theorem step_call_eq (bc : Bytecode) (s : VMState) (c f : String) (d : Fn)
    (top : Frame) (rest : List Frame) (entry : Nat)
    (hinstr : bc.bytecode[s.pc]? = some (.Call c f))
    (hsym : bc.symbols.lookup (c, f) = some d)
    (hlab : bc.labels.lookup (c, f) = some entry)
    (hframes : s.frames = top :: rest)
    (hlen : d.num_params ≤ top.stack.length) :
    step bc s = .next { s with
      frames := Frame.new f ((top.stack.take d.num_params).reverse) (s.pc + 1) ::
                { top with stack := top.stack.drop d.num_params } :: rest,
      pc := entry } := by
  have hlt : s.pc < bc.bytecode.length := (List.getElem?_eq_some.mp hinstr).1
  unfold step
  rw [if_neg (by omega), hinstr]
  simp only [hframes, hsym, Fn.params_len, popN_eq d.num_params top hlen, hlab]
  rw [unwind_no_raise _ _ _ rfl rfl]

theorem step_ret_eq (bc : Bytecode) (s : VMState) (top caller : Frame)
    (rest : List Frame)
    (hinstr : bc.bytecode[s.pc]? = some .Ret)
    (hframes : s.frames = top :: caller :: rest)
    (hraise : caller.raise = false) :
    step bc s = .next { s with
      frames := caller.push (top.stack.headD .NoneType) :: rest,
      pc := top.return_address } := by
  have hlt : s.pc < bc.bytecode.length := (List.getElem?_eq_some.mp hinstr).1
  unfold step
  rw [if_neg (by omega), hinstr]
  simp only [hframes]
  have h := unwind_no_raise
    { heap := s.heap, frames := caller.push (top.stack.headD .NoneType) :: rest,
      pc := top.return_address }
    (caller.push (top.stack.headD .NoneType)) rest rfl
    (by simpa [Frame.push] using hraise)
  simp only [List.headD_eq_head?] at h
  simp [h]

/-- C2: executing `Call(c, f)` with descriptor `d = symbols[(c,f)]` pops
exactly `d.num_params` values from the caller's operand stack, reverses
them (so the first-declared parameter is local slot 0 of the new frame),
pushes a new frame named `f` with `return_address = pc + 1`, and sets the
pc to `labels[(c,f)]`. -/
theorem call_semantics (bc : Bytecode) (s : VMState) (c f : String) (d : Fn)
    (top : Frame) (rest : List Frame) (entry : Nat)
    (hinstr : bc.bytecode[s.pc]? = some (.Call c f))
    (hsym : bc.symbols.lookup (c, f) = some d)
    (hlab : bc.labels.lookup (c, f) = some entry)
    (hframes : s.frames = top :: rest)
    (hlen : d.num_params ≤ top.stack.length) :
    step bc s = .next { s with
      frames := Frame.new f ((top.stack.take d.num_params).reverse) (s.pc + 1) ::
                { top with stack := top.stack.drop d.num_params } :: rest,
      pc := entry } :=
  step_call_eq bc s c f d top rest entry hinstr hsym hlab hframes hlen

/-- C2 witness: a two-argument call pops both arguments, puts the
first-pushed one in slot 0, records return address 1, and jumps to the
callee's label. -/
theorem call_semantics_witness :
    step (Bytecode.mk [.Call "global" "f"] [(("global", "f"), ⟨["a", "b"], 2⟩)]
           [(("global", "f"), 7)])
      (VMState.mk [] [Frame.mk [.Int 2, .Int 1] [] 9 false false "main"] 0) =
    .next (VMState.mk []
      [Frame.new "f" (([NativeType.Int 2, NativeType.Int 1].take 2).reverse) 1,
       { Frame.mk [.Int 2, .Int 1] [] 9 false false "main" with
         stack := [NativeType.Int 2, NativeType.Int 1].drop 2 }] 7) :=
  call_semantics (Bytecode.mk [.Call "global" "f"] [(("global", "f"), ⟨["a", "b"], 2⟩)]
      [(("global", "f"), 7)])
    (VMState.mk [] [Frame.mk [.Int 2, .Int 1] [] 9 false false "main"] 0)
    "global" "f" ⟨["a", "b"], 2⟩ (Frame.mk [.Int 2, .Int 1] [] 9 false false "main")
    [] 7 rfl rfl rfl rfl (by decide)

/-- C7: across a `Call`/`Ret` pair that does not raise, the caller's
operand-stack depth first drops by `num_params` at the `Call`, and the
`Ret` then pushes exactly one value — the callee's top of stack, or
`NoneType` when the callee's stack is empty — back onto the caller. -/
theorem call_ret_stack_depth :
    (∀ (bc : Bytecode) (s : VMState) (c f : String) (d : Fn) (top : Frame)
       (rest : List Frame) (entry : Nat),
       bc.bytecode[s.pc]? = some (.Call c f) →
       bc.symbols.lookup (c, f) = some d →
       bc.labels.lookup (c, f) = some entry →
       s.frames = top :: rest →
       d.num_params ≤ top.stack.length →
       ∃ callee caller : Frame,
         step bc s = .next { s with frames := callee :: caller :: rest, pc := entry } ∧
         caller.stack.length = top.stack.length - d.num_params) ∧
    (∀ (bc : Bytecode) (s : VMState) (top caller : Frame) (rest : List Frame),
       bc.bytecode[s.pc]? = some .Ret →
       s.frames = top :: caller :: rest →
       caller.raise = false →
       step bc s = .next { s with
           frames := caller.push (top.stack.headD .NoneType) :: rest,
           pc := top.return_address } ∧
         (caller.push (top.stack.headD .NoneType)).stack.length =
           caller.stack.length + 1) := by
  constructor
  · intro bc s c f d top rest entry hinstr hsym hlab hframes hlen
    refine ⟨Frame.new f ((top.stack.take d.num_params).reverse) (s.pc + 1),
            { top with stack := top.stack.drop d.num_params },
            step_call_eq bc s c f d top rest entry hinstr hsym hlab hframes hlen, ?_⟩
    simp
  · intro bc s top caller rest hinstr hframes hraise
    exact ⟨step_ret_eq bc s top caller rest hinstr hframes hraise,
           by simp [Frame.push]⟩

/-- C7 witness: a 1-argument `Call` shrinks the caller's stack from 1 to 0,
and the matching `Ret` pushes one return value back. -/
theorem call_ret_stack_depth_witness :
    (∃ callee caller : Frame,
       step (Bytecode.mk [.Call "global" "f", .Ret] [(("global", "f"), ⟨["a"], 1⟩)]
              [(("global", "f"), 1)])
         (VMState.mk [] [Frame.mk [.Int 5] [] 9 false false "main"] 0) =
         .next (VMState.mk [] [callee, caller] 1) ∧
       caller.stack.length = [NativeType.Int 5].length - 1) ∧
    (step (Bytecode.mk [.Ret] [] [])
       (VMState.mk [] [Frame.mk [.Int 5] [] 3 false false "f",
                       Frame.mk [] [] 9 false false "main"] 0) =
       .next (VMState.mk []
         [(Frame.mk [] [] 9 false false "main").push
            ([NativeType.Int 5].headD .NoneType)] 3) ∧
       ((Frame.mk [] [] 9 false false "main").push
          ([NativeType.Int 5].headD .NoneType)).stack.length =
         ([] : List NativeType).length + 1) :=
  ⟨call_ret_stack_depth.1 (Bytecode.mk [.Call "global" "f", .Ret]
       [(("global", "f"), ⟨["a"], 1⟩)] [(("global", "f"), 1)])
     (VMState.mk [] [Frame.mk [.Int 5] [] 9 false false "main"] 0)
     "global" "f" ⟨["a"], 1⟩ (Frame.mk [.Int 5] [] 9 false false "main") [] 1
     rfl rfl rfl rfl (by decide),
   call_ret_stack_depth.2 (Bytecode.mk [.Ret] [] [])
     (VMState.mk [] [Frame.mk [.Int 5] [] 3 false false "f",
                     Frame.mk [] [] 9 false false "main"] 0)
     (Frame.mk [.Int 5] [] 3 false false "f")
     (Frame.mk [] [] 9 false false "main") [] rfl rfl rfl⟩

/-- C9: `JumpIfTrue`/`JumpIfFalse` with a non-`Bool` on top of the operand
stack still pops it and advances the pc by one: no jump, no raise, no
fatal error. -/
theorem jump_non_bool_falls_through (bc : Bytecode) (s : VMState) (p : Nat)
    (top : Frame) (rest : List Frame) (v : NativeType) (stack' : List NativeType)
    (hinstr : bc.bytecode[s.pc]? = some (.JumpIfTrue p) ∨
              bc.bytecode[s.pc]? = some (.JumpIfFalse p))
    (hframes : s.frames = top :: rest) (hstack : top.stack = v :: stack')
    (hv : ∀ x : Bool, v ≠ NativeType.Bool x) (hraise : top.raise = false) :
    step bc s = .next { s with frames := { top with stack := stack' } :: rest,
                               pc := s.pc + 1 } := by
  rcases hinstr with hinstr | hinstr <;>
  · have hlt : s.pc < bc.bytecode.length := (List.getElem?_eq_some.mp hinstr).1
    unfold step
    rw [if_neg (by omega), hinstr]
    simp only [hframes, Frame.pop, hstack]
    rw [if_neg (by simp [hv])]
    have h := unwind_no_raise
      { heap := s.heap, frames := { top with stack := stack' } :: rest, pc := s.pc + 1 }
      { top with stack := stack' } rest rfl (by simpa using hraise)
    simp [h]

/-- C9 witness: `JumpIfTrue 0` with `Str "x"` on top pops it and falls
through to pc 1. -/
theorem jump_non_bool_falls_through_witness :
    step (Bytecode.mk [.JumpIfTrue 0] [] [])
      (VMState.mk [] [Frame.mk [.Str "x"] [] 9 false false "main"] 0) =
    .next (VMState.mk []
      [{ Frame.mk [.Str "x"] [] 9 false false "main" with stack := [] }] 1) :=
  jump_non_bool_falls_through (Bytecode.mk [.JumpIfTrue 0] [] [])
    (VMState.mk [] [Frame.mk [.Str "x"] [] 9 false false "main"] 0) 0
    (Frame.mk [.Str "x"] [] 9 false false "main") [] (.Str "x") []
    (Or.inl rfl) rfl rfl (fun x => by simp) rfl

/-! ## Unhandled raise (C1) -/

theorem findTryIdx_eq_none (l : List Frame) (h : ∀ fr ∈ l, fr.in_try = false) :
    findTryIdx l = none := by
  induction l with
  | nil => rfl
  | cons f rest ih =>
    simp [findTryIdx, h f (by simp),
      ih (fun fr hfr => h fr (by simp [hfr]))]

/-- C1: when a raise is pending and no frame on the frame stack is inside a
try region, the unwinder discards every frame and parks the pc at
`usize::max_value()`; from such a state the interpreter loop halts with no
result, so the published result is the empty string — in particular the
compiled image of `class global(){ def main(){ 1 + foo() } def foo(){ raise } }`
publishes `""`. -/
theorem unhandled_raise_empty_result :
    (∀ (s : VMState) (top : Frame) (rest : List Frame),
       s.frames = top :: rest → top.raise = true →
       (∀ fr ∈ s.frames, fr.in_try = false) →
       unwind_stack_on_raise s = some { s with frames := [], pc := usizeMax }) ∧
    (∀ (bc : Bytecode) (s : VMState),
       s.frames = [] → bc.bytecode.length ≤ s.pc →
       step bc s = .halt none) ∧
    run program7 10 = some "" := by
  refine ⟨?_, ?_, by decide⟩
  · intro s top rest hframes htop hin
    simp [unwind_stack_on_raise, hframes, htop,
      findTryIdx_eq_none s.frames hin, hframes.symm ▸ findTryIdx_eq_none _ hin]
  · intro bc s hframes hpc
    unfold step
    rw [if_pos (by omega)]
    simp [hframes]

/-- C1 witness: a raising root frame with no try region unwinds to the empty
frame stack with pc parked, and a state with no frames past the end of a
program halts with no result. -/
theorem unhandled_raise_empty_result_witness :
    (unwind_stack_on_raise
       (VMState.mk [] [Frame.mk [.Str "Exception", .ObjectRef 0] [] 6 true false "foo",
                       Frame.mk [.Int 1] [] 6 false false "main"] 4) =
       some (VMState.mk [] [] usizeMax)) ∧
    (step program7 (VMState.mk [] [] usizeMax) = .halt none) :=
  ⟨unhandled_raise_empty_result.1
     (VMState.mk [] [Frame.mk [.Str "Exception", .ObjectRef 0] [] 6 true false "foo",
                     Frame.mk [.Int 1] [] 6 false false "main"] 4)
     (Frame.mk [.Str "Exception", .ObjectRef 0] [] 6 true false "foo")
     [Frame.mk [.Int 1] [] 6 false false "main"] rfl rfl (by decide),
   unhandled_raise_empty_result.2.1 program7 (VMState.mk [] [] usizeMax) rfl
     (by decide)⟩

/-! ## Emission is append-only (needed for C8) -/

theorem gen_bc_bytecode (ctx : CompilerContext) (i : Instr) :
    ((ctx.gen_bc i).1).bytecode = ctx.bytecode ++ [i] := rfl

theorem gen_bc_append (ctx2 ctx' : CompilerContext) (i : Instr)
    (base d12 : List Instr)
    (h : (ctx2.gen_bc i).1 = ctx') (hd : ctx2.bytecode = base ++ d12) :
    ∃ d, ctx'.bytecode = base ++ d :=
  ⟨d12 ++ [i], by rw [← h]; simp [CompilerContext.gen_bc, hd]⟩

theorem gen_bc2_append (ctx2 ctx' : CompilerContext) (i j : Instr)
    (base d12 : List Instr)
    (h : (((ctx2.gen_bc i).1).gen_bc j).1 = ctx') (hd : ctx2.bytecode = base ++ d12) :
    ∃ d, ctx'.bytecode = base ++ d :=
  ⟨d12 ++ [i, j], by rw [← h]; simp [CompilerContext.gen_bc, hd]⟩

/-- The expression/argument emitters only ever append to the instruction
vector. -/
theorem gen_append_only (fuel : Nat) :
    (∀ (node : Node) (ctx ctx' : CompilerContext),
       gen_exp fuel node ctx = some ctx' → ∃ d, ctx'.bytecode = ctx.bytecode ++ d) ∧
    (∀ (node : Node) (ctx ctx' : CompilerContext),
       gen_args fuel node ctx = some ctx' → ∃ d, ctx'.bytecode = ctx.bytecode ++ d) ∧
    (∀ (l : List Node) (ctx ctx' : CompilerContext),
       gen_args_list fuel l ctx = some ctx' → ∃ d, ctx'.bytecode = ctx.bytecode ++ d) := by
  induction fuel with
  | zero =>
    refine ⟨?_, ?_, ?_⟩
    · intro node ctx ctx' h
      simp [gen_exp] at h
    · intro node ctx ctx' h
      simp [gen_args] at h
    · intro l ctx ctx' h
      cases l with
      | nil =>
        simp only [gen_args_list, Option.some.injEq] at h
        exact ⟨[], by simp [← h]⟩
      | cons a as => simp [gen_args_list] at h
  | succ fuel ih =>
    obtain ⟨ihExp, ihArgs, ihList⟩ := ih
    refine ⟨?_, ?_, ?_⟩
    · intro node ctx ctx' h
      cases node with
      | Term tn tv =>
        simp only [gen_exp, Option.some.injEq] at h
        exact ⟨[], by simp [← h]⟩
      | Nonterm nname nodes =>
        simp only [gen_exp] at h
        rcases h0 : nodes[0]? with _ | exp_type <;> rw [h0] at h
        · simp at h
        · cases exp_type with
          | Term tn tv =>
            simp only [Option.some.injEq] at h
            exact ⟨[], by simp [← h]⟩
          | Nonterm iname inner =>
            simp only [Node.get_name] at h
            split at h
            -- variable
            · simp only [Option.bind_eq_bind', Option.bind_eq_some,
                Option.some.injEq] at h
              obtain ⟨v, _, off, _, h⟩ := h
              exact ⟨[.LoadVar off], by simp [← h, CompilerContext.gen_bc]⟩
            -- binary_expression
            · simp only [Option.bind_eq_bind', Option.bind_eq_some] at h
              obtain ⟨lhs, _, rhs, _, bin_op, _, ctx1, hg1, ctx2, hg2, h⟩ := h
              obtain ⟨d1, hd1⟩ := ihExp lhs ctx ctx1 hg1
              obtain ⟨d2, hd2⟩ := ihExp rhs ctx1 ctx2 hg2
              cases bin_op with
              | Term tn tv =>
                simp only [Option.some.injEq] at h
                exact ⟨d1 ++ d2, by simp [← h, hd2, hd1]⟩
              | Nonterm bn opNodes =>
                simp only [Option.bind_eq_bind', Option.bind_eq_some] at h
                obtain ⟨operator, _, h⟩ := h
                split at h <;>
                  first
                  | exact Option.noConfusion h
                  | exact gen_bc_append ctx2 ctx' _ ctx.bytecode (d1 ++ d2)
                      (Option.some.inj h) (by rw [hd2, hd1]; simp)
            -- method_invocation
            · simp only [Option.bind_eq_bind', Option.bind_eq_some,
                Option.some.injEq] at h
              obtain ⟨argsN, _, recv, _, meth, _, ctx1, hga, obj, _, mth, _, h⟩ := h
              obtain ⟨d1, hd1⟩ := ihArgs argsN ctx ctx1 hga
              exact gen_bc_append ctx1 ctx' _ ctx.bytecode d1 h hd1
            -- method_invocation_same_class
            · simp only [Option.bind_eq_bind', Option.bind_eq_some,
                Option.some.injEq] at h
              obtain ⟨argsN, _, meth, _, ctx1, hga, mth, _, h⟩ := h
              obtain ⟨d1, hd1⟩ := ihArgs argsN ctx ctx1 hga
              exact gen_bc_append ctx1 ctx' _ ctx.bytecode d1 h hd1
            -- field_access
            · simp only [Option.bind_eq_bind', Option.bind_eq_some,
                Option.some.injEq] at h
              obtain ⟨recv, _, fieldN, _, off, _, fname, _, h⟩ := h
              exact gen_bc2_append ctx ctx' _ _ ctx.bytecode [] h (by simp)
            -- field_set
            · simp only [Option.bind_eq_bind', Option.bind_eq_some,
                Option.some.injEq] at h
              obtain ⟨valueN, _, recv, _, fieldN, _, ctx1, hg1, off, _, fname, _, h⟩ := h
              obtain ⟨d1, hd1⟩ := ihExp valueN ctx ctx1 hg1
              exact gen_bc2_append ctx1 ctx' _ _ ctx.bytecode d1 h hd1
            -- class_instance_creation
            · simp only [Option.bind_eq_bind', Option.bind_eq_some,
                Option.some.injEq] at h
              obtain ⟨clsN, _, argsN, _, cls, _, ctx3, hga, h⟩ := h
              obtain ⟨d3, hd3⟩ := ihArgs argsN _ ctx3 hga
              exact gen_bc2_append ctx3 ctx' _ _ ctx.bytecode ([.NewObject, .Dup] ++ d3) h
                (by rw [hd3]; simp [CompilerContext.gen_bc])
            -- literal
            · simp only [Option.bind_eq_bind', Option.bind_eq_some] at h
              obtain ⟨litN, _, lit, _, h⟩ := h
              split at h
              · simp only [Option.bind_eq_bind', Option.bind_eq_some,
                  Option.some.injEq] at h
                obtain ⟨int, _, h⟩ := h
                exact gen_bc_append ctx ctx' _ ctx.bytecode [] h (by simp)
              · exact gen_bc_append ctx ctx' _ ctx.bytecode []
                  (Option.some.inj h) (by simp)
              · exact Option.noConfusion h
            -- unknown expression
            · exact absurd h (by simp)
    · intro node ctx ctx' h
      cases node with
      | Term tn tv =>
        simp only [gen_args, Option.some.injEq] at h
        exact ⟨[], by simp [← h]⟩
      | Nonterm nname nodes =>
        rw [show gen_args (fuel + 1) (.Nonterm nname nodes) ctx =
              gen_args_list fuel nodes ctx from rfl] at h
        exact ihList nodes ctx ctx' h
    · intro l ctx ctx' h
      cases l with
      | nil =>
        simp only [gen_args_list, Option.some.injEq] at h
        exact ⟨[], by simp [← h]⟩
      | cons child rest =>
        simp only [gen_args_list] at h
        split at h
        · simp only [Option.bind_eq_bind', Option.bind_eq_some] at h
          obtain ⟨ctx1, hg1, h⟩ := h
          obtain ⟨d1, hd1⟩ := ihArgs child ctx ctx1 hg1
          obtain ⟨d2, hd2⟩ := ihList rest ctx1 ctx' h
          exact ⟨d1 ++ d2, by simp [hd2, hd1]⟩
        · simp only [Option.bind_eq_bind', Option.bind_eq_some] at h
          obtain ⟨ctx1, hg1, h⟩ := h
          obtain ⟨d1, hd1⟩ := ihExp child ctx ctx1 hg1
          obtain ⟨d2, hd2⟩ := ihList rest ctx1 ctx' h
          exact ⟨d1 ++ d2, by simp [hd2, hd1]⟩
        · obtain ⟨d2, hd2⟩ := ihList rest ctx ctx' h
          exact ⟨d2, hd2⟩
        · exact absurd h (by simp)

/-- C8: compiling `new C(args)` emits, in order, `NewObject`, `Dup`, the
argument code, `Call(C, "construct")`, `Pop`: the constructor's return value
is discarded and the duplicated object reference stays on the stack. -/
theorem instance_creation_emission (fuel : Nat) (node exp_type clsN argsN : Node)
    (outerName cls : String) (nodes inner : List Node)
    (ctx ctxOut : CompilerContext)
    (hnode : node = .Nonterm outerName nodes)
    (h0 : nodes[0]? = some exp_type)
    (hexp : exp_type = .Nonterm "class_instance_creation" inner)
    (hcls : inner[1]? = some clsN)
    (hargs : inner[3]? = some argsN)
    (hclsv : clsN.get_value = some cls)
    (hgen : gen_exp (fuel + 1) node ctx = some ctxOut) :
    ∃ (ctx3 : CompilerContext) (argcode : List Instr),
      gen_args fuel argsN (((ctx.gen_bc .NewObject).1).gen_bc .Dup).1 = some ctx3 ∧
      ((((ctx.gen_bc .NewObject).1).gen_bc .Dup).1).bytecode =
        ctx.bytecode ++ [.NewObject, .Dup] ∧
      ctx3.bytecode = ctx.bytecode ++ [.NewObject, .Dup] ++ argcode ∧
      ctxOut.bytecode = ctx.bytecode ++ [.NewObject, .Dup] ++ argcode ++
        [.Call cls CONSTRUCTOR, .Pop] := by
  subst hnode hexp
  simp only [gen_exp, h0, Node.get_name, hcls, hargs, hclsv,
    Option.bind_eq_bind', Option.some_bind] at hgen
  rcases hga : gen_args fuel argsN (((ctx.gen_bc .NewObject).1).gen_bc .Dup).1
      with _ | ctx3 <;> rw [hga] at hgen
  · simp at hgen
  · simp only [Option.some_bind, Option.some.injEq] at hgen
    obtain ⟨argcode, hac⟩ := (gen_append_only fuel).2.1 argsN _ ctx3 hga
    refine ⟨ctx3, argcode, rfl, by simp [CompilerContext.gen_bc], ?_, ?_⟩
    · rw [hac]
      simp [CompilerContext.gen_bc]
    · rw [← hgen, gen_bc_bytecode, gen_bc_bytecode, hac]
      simp [CompilerContext.gen_bc]

/-- C8 witness: compiling `new Foo()` from an empty context emits
`[NewObject, Dup, Call Foo construct, Pop]`, with the (empty) argument code
between `Dup` and the constructor call. -/
theorem instance_creation_emission_witness :
    ∃ (ctx3 : CompilerContext) (argcode : List Instr),
      gen_args 5 (.Nonterm "arg_list_opt" [])
          (((CompilerContext.new.gen_bc .NewObject).1).gen_bc .Dup).1 = some ctx3 ∧
      ((((CompilerContext.new.gen_bc .NewObject).1).gen_bc .Dup).1).bytecode =
        CompilerContext.new.bytecode ++ [.NewObject, .Dup] ∧
      ctx3.bytecode = CompilerContext.new.bytecode ++ [.NewObject, .Dup] ++ argcode ∧
      (CompilerContext.mk [] [.NewObject, .Dup, .Call "Foo" "construct", .Pop] []
          "global" "global").bytecode =
        CompilerContext.new.bytecode ++ [.NewObject, .Dup] ++ argcode ++
          [.Call "Foo" CONSTRUCTOR, .Pop] :=
  instance_creation_emission 5
    (.Nonterm "expression"
      [.Nonterm "class_instance_creation"
        [.Term "NEW" "new", .Term "IDENTIFIER" "Foo", .Term "LPAREN" "(",
         .Nonterm "arg_list_opt" [], .Term "RPAREN" ")"]])
    (.Nonterm "class_instance_creation"
      [.Term "NEW" "new", .Term "IDENTIFIER" "Foo", .Term "LPAREN" "(",
       .Nonterm "arg_list_opt" [], .Term "RPAREN" ")"])
    (.Term "IDENTIFIER" "Foo") (.Nonterm "arg_list_opt" []) "expression" "Foo"
    [.Nonterm "class_instance_creation"
      [.Term "NEW" "new", .Term "IDENTIFIER" "Foo", .Term "LPAREN" "(",
       .Nonterm "arg_list_opt" [], .Term "RPAREN" ")"]]
    [.Term "NEW" "new", .Term "IDENTIFIER" "Foo", .Term "LPAREN" "(",
     .Nonterm "arg_list_opt" [], .Term "RPAREN" ")"]
    CompilerContext.new
    (CompilerContext.mk [] [.NewObject, .Dup, .Call "Foo" "construct", .Pop] []
      "global" "global")
    rfl rfl rfl rfl rfl rfl rfl

end Plang
